import Mathlib

/-!
Shallow embedding of the bnfgen grammar-based random string generator,
written to check the natural-language specification against the code.

The embedding follows the Rust sources:
  * `crates/bnfgen-core/src/grammar/alt.rs`, `production.rs`, `state.rs`,
    `generator.rs`, `grammar/graph.rs`, `token.rs`
  * `src/grammar/raw.rs`, `rule.rs`, `symbol.rs`, `checked.rs`, `graph.rs`,
    `regex.rs`, `generator.rs`, `token.rs`
  * `crates/bnfgen-cli/src/app.rs`

Machine integers (`usize`, `u64`) are modelled as `Nat` (the programs never
rely on wraparound for the quantities involved: weights, counts and limits
are small and only incremented).  The random number generator is modelled
as a stream of naturals: each call asking for a uniform value in a range
consumes the head of the stream reduced into the range.  Hash-based
identities (`AltId`, a 64-bit hash of the symbol sequence) are modelled by
the symbol sequence itself, i.e. the hash is treated as injective, which is
the stated intent ("the stable identity of an alternative ... is a content
hash of its symbol sequence").  `HashMap<AltId, usize>` with a default of 0
is modelled as a total function `AltId → Nat`.  Rust panics (`expect`,
`unwrap`, `todo!`) are modelled by an explicit `panic` result constructor
or by `Option`/`Except` failure, as noted at each definition.
-/

namespace Bnfgen

/-- Source span, from `span.rs` (`start` and `end` byte offsets). -/
structure Span where
  start : Nat
  stop : Nat
  deriving DecidableEq, Repr

/-- Type tag of a non-terminal, from `symbol.rs` (`Ty`). -/
inductive Ty where
  | untyped : Ty
  | typed (label : String) : Ty
  deriving DecidableEq, Repr

/-- A non-terminal reference or left-hand side, from `symbol.rs`
(`NonTerminal`: a name together with a type tag). -/
structure NonTerminal where
  name : String
  ty : Ty
  deriving DecidableEq, Repr

/-- Compiled regex tree, from `regex.rs` (the `regex_syntax::hir::Hir`
shapes actually consumed by `Regex::helper`): empty, literal, repetition,
concatenation, alternation, character class (a list of inclusive
code-point ranges) and capture group.  Lookaround (`HirKind::Look`) is kept
as its own constructor because the sampler panics (`todo!()`) on it. -/
inductive Hir where
  | empty : Hir
  | lit (s : List Char) : Hir
  | rep (lo : Nat) (hi : Option Nat) (sub : Hir) : Hir
  | cat (xs : List Hir) : Hir
  | alt (xs : List Hir) : Hir
  | cls (ranges : List (Nat × Nat)) : Hir
  | look : Hir
  | cap (sub : Hir) : Hir
  deriving Repr

mutual

/-- Structural equality test for `Hir` (spelled out because automatic
derivation does not handle the nested `List Hir` fields). -/
def Hir.beq : Hir → Hir → Bool
  | .empty, .empty => true
  | .lit s, .lit t => s == t
  | .rep l h s, .rep l' h' s' => l == l' && h == h' && Hir.beq s s'
  | .cat xs, .cat ys => Hir.beqList xs ys
  | .alt xs, .alt ys => Hir.beqList xs ys
  | .cls r, .cls r' => r == r'
  | .look, .look => true
  | .cap s, .cap t => Hir.beq s t
  | _, _ => false

/-- Pointwise `Hir.beq` on lists. -/
def Hir.beqList : List Hir → List Hir → Bool
  | [], [] => true
  | x :: xs, y :: ys => Hir.beq x y && Hir.beqList xs ys
  | _, _ => false

end

mutual

theorem Hir.beq_iff : ∀ a b : Hir, Hir.beq a b = true ↔ a = b
  | .empty, .empty => by simp [Hir.beq]
  | .lit s, .lit t => by simp [Hir.beq]
  | .rep l h s, .rep l' h' s' => by
      simp [Hir.beq, Hir.beq_iff s s', and_assoc]
  | .cat xs, .cat ys => by simp [Hir.beq, Hir.beqList_iff xs ys]
  | .alt xs, .alt ys => by simp [Hir.beq, Hir.beqList_iff xs ys]
  | .cls r, .cls r' => by simp [Hir.beq]
  | .look, .look => by simp [Hir.beq]
  | .cap s, .cap t => by simp [Hir.beq, Hir.beq_iff s t]
  | .empty, .lit _ => by simp [Hir.beq]
  | .empty, .rep _ _ _ => by simp [Hir.beq]
  | .empty, .cat _ => by simp [Hir.beq]
  | .empty, .alt _ => by simp [Hir.beq]
  | .empty, .cls _ => by simp [Hir.beq]
  | .empty, .look => by simp [Hir.beq]
  | .empty, .cap _ => by simp [Hir.beq]
  | .lit _, .empty => by simp [Hir.beq]
  | .lit _, .rep _ _ _ => by simp [Hir.beq]
  | .lit _, .cat _ => by simp [Hir.beq]
  | .lit _, .alt _ => by simp [Hir.beq]
  | .lit _, .cls _ => by simp [Hir.beq]
  | .lit _, .look => by simp [Hir.beq]
  | .lit _, .cap _ => by simp [Hir.beq]
  | .rep _ _ _, .empty => by simp [Hir.beq]
  | .rep _ _ _, .lit _ => by simp [Hir.beq]
  | .rep _ _ _, .cat _ => by simp [Hir.beq]
  | .rep _ _ _, .alt _ => by simp [Hir.beq]
  | .rep _ _ _, .cls _ => by simp [Hir.beq]
  | .rep _ _ _, .look => by simp [Hir.beq]
  | .rep _ _ _, .cap _ => by simp [Hir.beq]
  | .cat _, .empty => by simp [Hir.beq]
  | .cat _, .lit _ => by simp [Hir.beq]
  | .cat _, .rep _ _ _ => by simp [Hir.beq]
  | .cat _, .alt _ => by simp [Hir.beq]
  | .cat _, .cls _ => by simp [Hir.beq]
  | .cat _, .look => by simp [Hir.beq]
  | .cat _, .cap _ => by simp [Hir.beq]
  | .alt _, .empty => by simp [Hir.beq]
  | .alt _, .lit _ => by simp [Hir.beq]
  | .alt _, .rep _ _ _ => by simp [Hir.beq]
  | .alt _, .cat _ => by simp [Hir.beq]
  | .alt _, .cls _ => by simp [Hir.beq]
  | .alt _, .look => by simp [Hir.beq]
  | .alt _, .cap _ => by simp [Hir.beq]
  | .cls _, .empty => by simp [Hir.beq]
  | .cls _, .lit _ => by simp [Hir.beq]
  | .cls _, .rep _ _ _ => by simp [Hir.beq]
  | .cls _, .cat _ => by simp [Hir.beq]
  | .cls _, .alt _ => by simp [Hir.beq]
  | .cls _, .look => by simp [Hir.beq]
  | .cls _, .cap _ => by simp [Hir.beq]
  | .look, .empty => by simp [Hir.beq]
  | .look, .lit _ => by simp [Hir.beq]
  | .look, .rep _ _ _ => by simp [Hir.beq]
  | .look, .cat _ => by simp [Hir.beq]
  | .look, .alt _ => by simp [Hir.beq]
  | .look, .cls _ => by simp [Hir.beq]
  | .look, .cap _ => by simp [Hir.beq]
  | .cap _, .empty => by simp [Hir.beq]
  | .cap _, .lit _ => by simp [Hir.beq]
  | .cap _, .rep _ _ _ => by simp [Hir.beq]
  | .cap _, .cat _ => by simp [Hir.beq]
  | .cap _, .alt _ => by simp [Hir.beq]
  | .cap _, .cls _ => by simp [Hir.beq]
  | .cap _, .look => by simp [Hir.beq]

theorem Hir.beqList_iff : ∀ xs ys : List Hir, Hir.beqList xs ys = true ↔ xs = ys
  | [], [] => by simp [Hir.beqList]
  | x :: xs, y :: ys => by
      simp [Hir.beqList, Hir.beq_iff x y, Hir.beqList_iff xs ys]
  | [], _ :: _ => by simp [Hir.beqList]
  | _ :: _, [] => by simp [Hir.beqList]

end

instance : DecidableEq Hir := fun a b => decidable_of_iff _ (Hir.beq_iff a b)

/-- Symbol kinds, from `symbol.rs` (`SymbolKind`): literal terminal,
non-terminal reference, or regex pattern. -/
inductive SymbolKind where
  | terminal (s : String) : SymbolKind
  | nonTerminal (nt : NonTerminal) : SymbolKind
  | regex (re : Hir) : SymbolKind
  deriving DecidableEq, Repr

/-- From `symbol.rs`: `SymbolKind::non_re_terminal` returns the literal for
a non-regex terminal and `None` otherwise. -/
def SymbolKind.non_re_terminal : SymbolKind → Option String
  | .terminal s => some s
  | _ => none

/-- From `symbol.rs`: `SymbolKind::is_terminal` is true for literal
terminals and regexes (both expand to output without further rules). -/
def SymbolKind.is_terminal : SymbolKind → Bool
  | .terminal _ => true
  | .regex _ => true
  | .nonTerminal _ => false

/-- From `symbol.rs`: `SymbolKind::non_terminal` returns the referenced
name for a non-terminal symbol. -/
def SymbolKind.non_terminal : SymbolKind → Option String
  | .nonTerminal nt => some nt.name
  | _ => none

/-- A symbol with its source span, from `symbol.rs` (`Symbol`).  Its `Hash`
implementation hashes only the kind, so spans never enter identities. -/
structure Symbol where
  kind : SymbolKind
  span : Span
  deriving DecidableEq, Repr

/-- Invoke limit of an alternative, from `alt.rs` (`Limit`). -/
inductive Limit where
  | unlimited : Limit
  | limited (lo hi : Nat) : Limit
  deriving DecidableEq, Repr

/-- One alternative of a production, from `alt.rs` (`Alternative`). -/
structure Alternative where
  span : Span
  weight : Nat
  invoke_limit : Limit
  symbols : List Symbol
  deriving DecidableEq, Repr

/-- The identity used to track per-alternative selection counts.  In the
source `AltId` is the 64-bit `DefaultHasher` hash of `symbols` (whose
`Hash` in turn hashes only every symbol kind); it is modelled as the list
of symbol kinds itself, treating the hash as injective. -/
abbrev AltId := List SymbolKind

/-- From `alt.rs` (`Alternative::id`): the content identity of the
alternative, a function of its symbol sequence only. -/
def Alternative.altId (a : Alternative) : AltId :=
  a.symbols.map Symbol.kind

/-- From `alt.rs` (`Alternative::non_re_terminals`). -/
def Alternative.non_re_terminals (a : Alternative) : List String :=
  a.symbols.filterMap (fun s => s.kind.non_re_terminal)

/-- From `alt.rs` (`Alternative::has_invoke_limits`): true unless the limit
is `Unlimited`. -/
def Alternative.has_invoke_limits (a : Alternative) : Bool :=
  match a.invoke_limit with
  | .unlimited => false
  | .limited _ _ => true

/-- Derivation state, from `state.rs` (`State`): the RNG (modelled as a
stream of naturals) and the per-identity selection counts (a `HashMap`
defaulting to 0, modelled as a total function). -/
structure State where
  rng : List Nat
  tracking : AltId → Nat

/-- From `state.rs` (`State::new`): fresh state, no counts. -/
def State.new (rng : List Nat) : State :=
  { rng := rng, tracking := fun _ => 0 }

/-- From `state.rs` (`State::count`): current count of an identity,
defaulting to 0. -/
def State.count (st : State) (id : AltId) : Nat :=
  st.tracking id

/-- From `state.rs` (`State::track`): increment the count of an identity. -/
def State.track (st : State) (id : AltId) : State :=
  { st with tracking := fun x => if x = id then st.tracking x + 1 else st.tracking x }

/-- Replace the RNG stream of a state (the part of the state mutated by a
`state.rng()` draw). -/
def State.withRng (st : State) (rng : List Nat) : State :=
  { st with rng := rng }

/-- Draw a uniform value in `[0, n)` from the RNG stream: consume the head
reduced mod `n` (an exhausted stream yields 0).  This models one
`Rng` call such as `dist.sample` or `gen_range(0..n)`. -/
def drawNat (rng : List Nat) (n : Nat) : Nat × List Nat :=
  match rng with
  | [] => (0, [])
  | x :: xs => (x % n, xs)

/-- Draw a uniform value in the inclusive range `[lo, hi]` (`lo ≤ hi`),
modelling `rng.gen_range(lo..=hi)`. -/
def drawRange (rng : List Nat) (lo hi : Nat) : Nat × List Nat :=
  let (x, rng') := drawNat rng (hi - lo + 1)
  (lo + x, rng')

/-- From `alt.rs` (`Alternative::exceeds_invoke_limit`): a bounded
alternative is over its limit once its count is strictly greater than
`max`; unlimited alternatives never are. -/
def Alternative.exceeds_invoke_limit (a : Alternative) (st : State) : Bool :=
  match a.invoke_limit with
  | .unlimited => false
  | .limited _ hi => decide (st.count a.altId > hi)

/-- From `alt.rs` (`Alternative::lose_invoke_limit`): a bounded alternative
is under its floor while its count is strictly below `min`. -/
def Alternative.lose_invoke_limit (a : Alternative) (st : State) : Bool :=
  match a.invoke_limit with
  | .unlimited => false
  | .limited lo _ => decide (st.count a.altId < lo)

/-- A weighted production, from `production.rs` (`WeightedProduction`). -/
structure WeightedProduction where
  alts : List Alternative
  deriving DecidableEq, Repr

/-- Errors, from `crates/bnfgen-core/src/error.rs` (`Error`), restricted to
the variants the embedded operations can produce.  `maxDepthExceeded` is
matched by the CLI driver (`app.rs` matches `Error::MaxDepthExceeded`);
its declaring revision of `error.rs` is not in the sources, so the
constructor is modelled from the spec (§7 lists the step-ceiling error). -/
inductive Error where
  | undefinedNonTerminal (span : Span) : Error
  | duplicatedRules (span prev : Span) : Error
  | invalidRepeatRange (span : Span) : Error
  | unreachableRules (spans : List Span) : Error
  | trapLoop (spans : List Span) : Error
  | noCandidatesAvailable (name : String) : Error
  | maxDepthExceeded : Error
  deriving DecidableEq, Repr

/-- The candidate set computed at the top of
`WeightedProduction::choose_by_state` (`production.rs`): if any alternative
is under its floor, exactly the under-floor alternatives; otherwise every
alternative that has not exceeded its limit. -/
def WeightedProduction.candidates (p : WeightedProduction) (st : State) :
    List Alternative :=
  if p.alts.any (fun a => a.lose_invoke_limit st) then
    p.alts.filter (fun a => a.lose_invoke_limit st)
  else
    p.alts.filter (fun a => !a.exceeds_invoke_limit st)

/-- Index selected by `rand::WeightedIndex` for a draw `r` with the given
weights: the first index whose cumulative weight exceeds `r`. -/
def weightedPick : List Nat → Nat → Nat
  | [], _ => 0
  | w :: ws, r => if r < w then 0 else weightedPick ws (r - w) + 1

instance : Inhabited Alternative :=
  ⟨{ span := ⟨0, 0⟩, weight := 0, invoke_limit := .unlimited, symbols := [] }⟩

/-- The weights of the candidate set. -/
def WeightedProduction.candWeights (p : WeightedProduction) (st : State) :
    List Nat :=
  (p.candidates st).map Alternative.weight

/-- The candidate sampled by `dist.sample(state.rng())` in
`choose_by_state`: draw `r` uniformly below the total weight, then take
the first candidate whose cumulative weight exceeds `r`. -/
def WeightedProduction.chosenAlt (p : WeightedProduction) (st : State) :
    Alternative :=
  (p.candidates st).getD
    (weightedPick (p.candWeights st) ((drawNat st.rng (p.candWeights st).sum).1))
    default

/-- From `production.rs` (`WeightedProduction::choose_by_state`, bnfgen-core
revision): filter candidates by invoke limits, fail with
`NoCandidatesAvailable` when none remain, build the weighted distribution
(whose construction fails exactly when all candidate weights are zero,
mapped to the same error), sample one candidate, record bounded selections
in the state, and return the chosen symbol kinds. -/
def WeightedProduction.choose_by_state (p : WeightedProduction) (st : State)
    (ntName : String) : Except Error (List SymbolKind × State) :=
  if (p.candidates st).isEmpty then
    .error (.noCandidatesAvailable ntName)
  else if (p.candWeights st).sum = 0 then
    .error (.noCandidatesAvailable ntName)
  else if (p.chosenAlt st).has_invoke_limits then
    .ok ((p.chosenAlt st).symbols.map Symbol.kind,
      (st.withRng (drawNat st.rng (p.candWeights st).sum).2).track (p.chosenAlt st).altId)
  else
    .ok ((p.chosenAlt st).symbols.map Symbol.kind,
      st.withRng (drawNat st.rng (p.candWeights st).sum).2)

/-- From `production.rs` (`WeightedProduction::non_re_terminals`). -/
def WeightedProduction.non_re_terminals (p : WeightedProduction) : List String :=
  p.alts.flatMap Alternative.non_re_terminals

mutual

/-- From `regex.rs` (`Regex::helper`): sample one string from a compiled
pattern, consuming the RNG stream.  `fuel` bounds the recursion depth (the
Rust recursion terminates structurally; fuel exhaustion yields `none`);
`none` also models the panics of the source: `todo!()` on lookaround and
`gen_range` on an empty range. -/
def hirHelper (fuel : Nat) (re : Hir) (rng : List Nat) :
    Option (String × List Nat) :=
  match fuel with
  | 0 => none
  | f + 1 =>
    match re with
    | .empty => some ("", rng)
    | .lit s => some (String.mk s, rng)
    | .rep lo hi sub =>
        let bound := hi.getD 5
        if lo > bound then none
        else
          let (k, rng₁) := drawRange rng lo bound
          hirHelperTimes f sub k rng₁
    | .cat xs => hirHelperSeq f xs rng
    | .alt xs =>
        if xs.length = 0 then none
        else
          let (i, rng₁) := drawNat rng xs.length
          hirHelper f (xs.getD i .empty) rng₁
    | .cls ranges =>
        if ranges.length = 0 then none
        else
          let (i, rng₁) := drawNat rng ranges.length
          let rg := ranges.getD i (0, 0)
          if rg.1 > rg.2 then none
          else
            let (c, rng₂) := drawRange rng₁ rg.1 rg.2
            some (String.mk [Char.ofNat c], rng₂)
    | .look => none
    | .cap sub => hirHelper f sub rng

/-- The repetition loop of `Regex::helper`: `k` successive samples of the
sub-pattern, concatenated (Rust joins the buffer with `""`). -/
def hirHelperTimes (fuel : Nat) (sub : Hir) (k : Nat) (rng : List Nat) :
    Option (String × List Nat) :=
  match fuel with
  | 0 => none
  | f + 1 =>
    match k with
    | 0 => some ("", rng)
    | k' + 1 =>
      match hirHelper f sub rng with
      | none => none
      | some (s, rng₁) =>
        match hirHelperTimes f sub k' rng₁ with
        | none => none
        | some (t, rng₂) => some (s ++ t, rng₂)

/-- The concatenation fold of `Regex::helper`: sample every child in order
and concatenate. -/
def hirHelperSeq (fuel : Nat) (xs : List Hir) (rng : List Nat) :
    Option (String × List Nat) :=
  match fuel with
  | 0 => none
  | f + 1 =>
    match xs with
    | [] => some ("", rng)
    | x :: rest =>
      match hirHelper f x rng with
      | none => none
      | some (s, rng₁) =>
        match hirHelperSeq f rest rng₁ with
        | none => none
        | some (t, rng₂) => some (s ++ t, rng₂)

end

/-- From `regex.rs` (`Regex::generate`): sample repeatedly, rejecting any
sample that equals one of the grammar's literal terminals.  The Rust source
is an unconditional `loop`; `fuel` bounds the number of iterations in the
embedding, with `none` meaning the loop has not produced a value within
`fuel` iterations (it never will if every sample collides). -/
def regexGenerate (fuel : Nat) (re : Hir) (terminals : List String)
    (rng : List Nat) : Option (String × List Nat) :=
  match fuel with
  | 0 => none
  | f + 1 =>
    match hirHelper (f + 1) re rng with
    | none => none
    | some (s, rng₁) =>
      if s ∈ terminals then regexGenerate f re terminals rng₁
      else some (s, rng₁)

/-- A validated grammar, from `checked.rs` (`CheckedGrammar`): an ordered
map (`IndexMap`) from typed non-terminal keys to productions, modelled as
an association list. -/
structure CheckedGrammar where
  rules : List (NonTerminal × WeightedProduction)
  deriving DecidableEq, Repr

/-- From `checked.rs` (the `SymbolKind::Regex` arm of `reduce`): every
non-regex literal terminal appearing anywhere in the grammar. -/
def CheckedGrammar.non_re_terminals (g : CheckedGrammar) : List String :=
  g.rules.flatMap (fun r => r.2.non_re_terminals)

/-- The candidate pool of the untyped lookup in `reduce` (`checked.rs`):
every defined key whose identifier matches, across all type tags. -/
def CheckedGrammar.untypedCandidates (g : CheckedGrammar) (name : String) :
    List NonTerminal :=
  (g.rules.map Prod.fst).filter (fun k => k.name = name)

/-- `IndexMap::get`: the production stored under an exactly matching key. -/
def CheckedGrammar.lookupRule (g : CheckedGrammar) (key : NonTerminal) :
    Option WeightedProduction :=
  (g.rules.find? (fun r => r.1 = key)).map Prod.snd

instance : Inhabited NonTerminal := ⟨{ name := "", ty := .untyped }⟩

/-- The key drawn by `candidates.choose(state.rng())` in the untyped
lookup of `reduce`: a uniform pick from the candidate pool. -/
def CheckedGrammar.untypedPickKey (g : CheckedGrammar) (name : String)
    (st : State) : NonTerminal :=
  (g.untypedCandidates name).getD
    ((drawNat st.rng (g.untypedCandidates name).length).1) default

/-- Result of one reduction step, from `checked.rs` (`ReduceOutput`). -/
inductive ReduceOutput where
  | terminal (s : String) : ReduceOutput
  | nonTerminal (name : String) (syms : List SymbolKind) : ReduceOutput
  deriving DecidableEq, Repr

/-- Modelled from the spec: the bnfgen-core revision of
`CheckedGrammar::reduce` is not among the sources (its callers in
`generator.rs` apply `?` to it, so it returns a `Result`); the lookup
discipline follows spec §3 and the older `checked.rs`: a terminal reduces
to itself; an untyped reference draws one key uniformly from the pool of
entries with the same identifier (failing when the pool is empty); a typed
reference requires an exact key match; the chosen production then selects
an alternative via `choose_by_state`; a regex samples a string avoiding
every literal terminal of the grammar.  `none` propagates fuel exhaustion
of the regex resampling loop. -/
def CheckedGrammar.reduce (g : CheckedGrammar) (fuel : Nat) (sym : SymbolKind)
    (st : State) : Option (Except Error (ReduceOutput × State)) :=
  match sym with
  | .terminal s => some (.ok (.terminal s, st))
  | .nonTerminal nt =>
    match nt.ty with
    | .untyped =>
        if (g.untypedCandidates nt.name).isEmpty then
          some (.error (.noCandidatesAvailable nt.name))
        else
          match g.lookupRule (g.untypedPickKey nt.name st) with
          | none => some (.error (.noCandidatesAvailable nt.name))
          | some p =>
            some ((p.choose_by_state
                (st.withRng (drawNat st.rng (g.untypedCandidates nt.name).length).2)
                nt.name).map
              (fun r => (.nonTerminal nt.name r.1, r.2)))
    | .typed _ =>
        match g.lookupRule nt with
        | none => some (.error (.noCandidatesAvailable nt.name))
        | some p =>
          some ((p.choose_by_state st nt.name).map
            (fun r => (.nonTerminal nt.name r.1, r.2)))
  | .regex re =>
      match regexGenerate fuel re g.non_re_terminals st.rng with
      | none => none
      | some sr => some (.ok (.terminal sr.1, { st with rng := sr.2 }))

/-- From `crates/bnfgen-core/src/generator.rs` (`Generator::generate`): the
iterative worklist loop.  The front symbol of the stack is reduced;
terminals are appended to the output buffer, a chosen alternative's
symbols are prepended to the stack.  `fuel` bounds the number of
iterations (`none` = the loop has not finished within `fuel` steps); the
final state is kept so that its tracking can be observed. -/
def CheckedGrammar.genLoop (g : CheckedGrammar) (fuel : Nat)
    (stack : List SymbolKind) (buf : List String) (st : State) :
    Option (Except Error (List String × State)) :=
  match fuel with
  | 0 => none
  | f + 1 =>
    match stack with
    | [] => some (.ok (buf, st))
    | sym :: rest =>
      match g.reduce (f + 1) sym st with
      | none => none
      | some (.error e) => some (.error e)
      | some (.ok (.terminal s, st')) => g.genLoop f rest (buf ++ [s]) st'
      | some (.ok (.nonTerminal _ syms, st')) => g.genLoop f (syms ++ rest) buf st'

/-- From `crates/bnfgen-core/src/generator.rs` (`Generator::generate`): run
the loop from the untyped start symbol with a fresh state and join the
buffer with single spaces. -/
def CheckedGrammar.generate (g : CheckedGrammar) (fuel : Nat) (start : String)
    (rng : List Nat) : Option (Except Error String) :=
  (g.genLoop fuel [.nonTerminal { name := start, ty := .untyped }] []
      (State.new rng)).map
    (fun r => r.map (fun p => String.intercalate " " p.1))

/-- A grammar rule, from `rule.rs` (`Rule`): a left-hand non-terminal, a
weighted production and a span. -/
structure Rule where
  lhs : NonTerminal
  production : WeightedProduction
  span : Span
  deriving DecidableEq, Repr

/-- From `rule.rs` (`Rule::produce_terminals`): the rule has an alternative
all of whose symbols are terminals (literal or regex; an empty alternative
qualifies vacuously). -/
def Rule.produce_terminals (r : Rule) : Bool :=
  r.production.alts.any (fun a => a.symbols.all (fun s => s.kind.is_terminal))

/-- A parsed, not yet validated grammar, from `raw.rs` (`RawGrammar`). -/
structure RawGrammar where
  rules : List Rule
  deriving DecidableEq, Repr

/-- The node set of the grammar graph built by `RawGrammar::graph`
(`raw.rs`): one node per rule, labelled with the left-hand identifier. -/
def RawGrammar.nodeNames (g : RawGrammar) : List String :=
  g.rules.map (fun r => r.lhs.name)

/-- The edge list of the grammar graph built by `RawGrammar::graph`
(`raw.rs`): an edge from a rule's left-hand identifier to every
non-terminal referenced in its right-hand side. -/
def RawGrammar.edges (g : RawGrammar) : List (String × String) :=
  g.rules.flatMap (fun r =>
    r.production.alts.flatMap (fun a =>
      a.symbols.filterMap (fun s =>
        (s.kind.non_terminal).map (fun n => (r.lhs.name, n)))))

/-- First rule defining a name (the `rules.iter().find(...)` pattern of
`graph.rs`). -/
def RawGrammar.ruleOf (g : RawGrammar) (name : String) : Option Rule :=
  g.rules.find? (fun r => r.lhs.name = name)

/-- Neighbor set of a component: the targets of every edge leaving a node
of the component (the `out_deg` collection of the old `is_trap_loop`). -/
def RawGrammar.neighborsOf (g : RawGrammar) (scc : List String) : List String :=
  ((g.edges).filter (fun e => e.1 ∈ scc)).map Prod.snd

/-- Set equality of two name collections (the `HashSet` comparison
`out_deg == scc...collect()` of the old `is_trap_loop`). -/
def sameNameSet (xs ys : List String) : Bool :=
  xs.all (fun x => x ∈ ys) && ys.all (fun y => y ∈ xs)

/-- From `src/grammar/graph.rs` (`GrammarGraph::is_trap_loop`): a component
is a trap loop iff no rule of the component has an all-terminal
alternative AND the set of all out-neighbors of the component equals the
component itself.  (A missing rule for a node name would be an `unwrap`
panic; it is modelled as not producing terminals, and is unreachable for
names coming from graph nodes.) -/
def RawGrammar.is_trap_loop_old (g : RawGrammar) (scc : List String) : Bool :=
  let produce_t := scc.any (fun name =>
    match g.ruleOf name with
    | some r => r.produce_terminals
    | none => false)
  if produce_t then false
  else sameNameSet (g.neighborsOf scc) scc

/-- From `src/grammar/graph.rs` (`GrammarGraph::check_trap_loop`): scan the
strongly connected components (the Tarjan decomposition is passed in as a
parameter) and fail with `TrapLoop`, citing the spans of the first trap
component's rules. -/
def RawGrammar.check_trap_loop_old (g : RawGrammar) (sccs : List (List String)) :
    Except Error Unit :=
  match sccs.find? (fun scc => g.is_trap_loop_old scc) with
  | some scc => .error (.trapLoop (scc.filterMap (fun n => (g.ruleOf n).map Rule.span)))
  | none => .ok ()

/-- The rules of a component, from `crates/bnfgen-core/src/grammar/graph.rs`
(`scc_rules` in `is_trap_loop`). -/
def RawGrammar.sccRules (g : RawGrammar) (scc : List String) : List Rule :=
  g.rules.filter (fun r => r.lhs.name ∈ scc)

/-- One alternative's escape test from the bnfgen-core `is_trap_loop`
fixpoint: every symbol is a terminal/regex, or a non-terminal outside the
component, or a non-terminal already known to escape. -/
def altEscapes (scc esc : List String) (a : Alternative) : Bool :=
  a.symbols.all (fun s =>
    if s.kind.is_terminal then true
    else
      match s.kind.non_terminal with
      | some n => !(scc.contains n) || esc.contains n
      | none => false)

/-- One pass of the bnfgen-core `is_trap_loop` fixpoint loop: every rule of
the component not yet marked escaping is marked if one of its alternatives
escapes.  Insertions are visible to later rules of the same pass, as in
the Rust `for` loop. -/
def RawGrammar.escapePass (g : RawGrammar) (scc : List String)
    (esc : List String) : List String :=
  (g.sccRules scc).foldl
    (fun esc r =>
      if r.lhs.name ∈ esc then esc
      else if r.production.alts.any (altEscapes scc esc) then esc ++ [r.lhs.name]
      else esc)
    esc

/-- From `crates/bnfgen-core/src/grammar/graph.rs` (`is_trap_loop`): the
least fixed point of rules of the component that can escape it.  The Rust
loop runs until no pass adds a rule; since each productive pass adds at
least one of the component's rules, running `|rules| + 1` passes reaches
the fixed point. -/
def RawGrammar.canEscapeSet (g : RawGrammar) (scc : List String) : List String :=
  Nat.rec [] (fun _ esc => g.escapePass scc esc) ((g.sccRules scc).length + 1)

/-- From `crates/bnfgen-core/src/grammar/graph.rs` (`is_trap_loop`,
fixpoint revision): a component is a trap loop iff it has rules and none
of them can escape. -/
def RawGrammar.is_trap_loop_core (g : RawGrammar) (scc : List String) : Bool :=
  !(g.sccRules scc).isEmpty && (g.canEscapeSet scc).isEmpty

/-- Iterated successor step of a reachability closure: all nodes reachable
from the seeds in at most `n` edge steps.  With `n` at least the number of
nodes this is exactly the depth-first reachable set computed by
`check_unused` (`Dfs` in `graph.rs`). -/
def RawGrammar.reachStep (g : RawGrammar) (cur : List String) : List String :=
  cur ++ ((g.edges.filter (fun e => e.1 ∈ cur)).map Prod.snd).filter
    (fun n => !(cur.contains n))

/-- Reachable-name set from a start node after enough closure passes. -/
def RawGrammar.reachableFrom (g : RawGrammar) (start : String) : List String :=
  Nat.rec [start] (fun _ cur => g.reachStep cur) (g.nodeNames.length + 1)

/-- Outcome of running a Rust function that may panic: `panic` carries the
panic message (`expect`/`unwrap`/`todo!`), `timeout` models a loop that
exceeded the embedding fuel, `ret` is a normal return. -/
inductive SrcOutcome (α : Type) where
  | panic (msg : String) : SrcOutcome α
  | timeout : SrcOutcome α
  | ret (a : α) : SrcOutcome α
  deriving DecidableEq, Repr

/-- From `src/grammar/graph.rs` (`GrammarGraph::check_unused`): look the
start symbol up among the nodes — `expect("The start symbol does not
exist")` panics when it is absent — then collect the depth-first reachable
set and report the unreachable rules' spans, if any. -/
def RawGrammar.check_unused (g : RawGrammar) (start : String) :
    SrcOutcome (Except Error Unit) :=
  if start ∈ g.nodeNames then
    let reachable := g.reachableFrom start
    let unreachable := g.nodeNames.filter (fun n => !(reachable.contains n))
    if unreachable.isEmpty then .ret (.ok ())
    else .ret (.error (.unreachableRules
      ((g.rules.filter (fun r => r.lhs.name ∈ unreachable)).map Rule.span)))
  else .panic "The start symbol does not exist"

/-- From `src/grammar/raw.rs` (`RawGrammar::check_undefined`): scan every
right-hand-side symbol in order and fail on the FIRST non-terminal whose
identifier matches no left-hand side (type tags are not considered). -/
def RawGrammar.check_undefined (g : RawGrammar) : Except Error Unit :=
  let defined := g.rules.map (fun r => r.lhs.name)
  match (g.rules.flatMap (fun r => r.production.alts.flatMap Alternative.symbols)).find?
      (fun s =>
        match s.kind with
        | .nonTerminal nt => !(defined.contains nt.name)
        | _ => false) with
  | some s => .error (.undefinedNonTerminal s.span)
  | none => .ok ()

/-- From `src/grammar/raw.rs` (`RawGrammar::check_duplicate`): the source
body is `// TODO: need to rework` followed by `Ok(self)` — the duplicate
check is a no-op that accepts every grammar. -/
def RawGrammar.check_duplicate (_g : RawGrammar) : Except Error Unit :=
  .ok ()

/-- From `src/grammar/raw.rs` (`RawGrammar::check_repeats`): fail on the
FIRST alternative whose bounded limit has `min > max`. -/
def RawGrammar.check_repeats (g : RawGrammar) : Except Error Unit :=
  match (g.rules.flatMap (fun r => r.production.alts)).find?
      (fun a =>
        match a.invoke_limit with
        | .limited lo hi => decide (lo > hi)
        | .unlimited => false) with
  | some a => .error (.invalidRepeatRange a.span)
  | none => .ok ()

/-- `IndexMap::insert`: replace the value of an existing key in place, or
append a new entry. -/
def indexMapInsert (m : List (NonTerminal × WeightedProduction))
    (k : NonTerminal) (v : WeightedProduction) :
    List (NonTerminal × WeightedProduction) :=
  if m.any (fun p => p.1 = k) then
    m.map (fun p => if p.1 = k then (k, v) else p)
  else m ++ [(k, v)]

/-- From `src/grammar/raw.rs` (`RawGrammar::to_checked`): run
`check_undefined`, `check_duplicate` and `check_repeats` in sequence, each
short-circuiting with `?`, then insert every rule into the checked map. -/
def RawGrammar.to_checked (g : RawGrammar) : Except Error CheckedGrammar :=
  match g.check_undefined with
  | .error e => .error e
  | .ok _ =>
    match g.check_duplicate with
    | .error e => .error e
    | .ok _ =>
      match g.check_repeats with
      | .error e => .error e
      | .ok _ =>
        .ok { rules :=
          g.rules.foldl (fun m r => indexMapInsert m r.lhs r.production) [] }

/-- From `src/grammar/production.rs` (`choose_by_state`, panicking
revision): same candidate filtering as the bnfgen-core revision, but the
`WeightedIndex::new(...).unwrap()` panics when the candidate list is empty
or all weights are zero, and the chosen alternative is tracked
unconditionally. -/
def WeightedProduction.choose_by_state_src (p : WeightedProduction) (st : State) :
    SrcOutcome (List SymbolKind × State) :=
  let candidates := p.candidates st
  let total := (candidates.map Alternative.weight).sum
  if candidates.isEmpty || total = 0 then
    .panic "called Result::unwrap on an Err value"
  else
    let rr := drawNat st.rng total
    let st₁ : State := { st with rng := rr.2 }
    let chosen := candidates.getD (weightedPick (candidates.map Alternative.weight) rr.1) default
    .ret (chosen.symbols.map Symbol.kind, st₁.track chosen.altId)

/-- From `src/grammar/checked.rs` (`CheckedGrammar::reduce`, panicking
revision): terminals reduce to themselves; an untyped reference draws a
key uniformly from the matching pool — `choose(...).expect("No candidates
available")` panics on an empty pool — and a typed reference requires an
exact match, panicking (`Fail to find rule of ...`) when absent; the
production then picks an alternative with the panicking `choose_by_state`;
a regex samples with the grammar-wide literal collision loop.  (The
`action` post-pass of that revision refers to a non-terminal field that
does not exist in the accompanying `symbol.rs` and is omitted.) -/
def CheckedGrammar.reduceSrc (g : CheckedGrammar) (fuel : Nat)
    (sym : SymbolKind) (st : State) : SrcOutcome (ReduceOutput × State) :=
  match sym with
  | .terminal s => .ret (.terminal s, st)
  | .nonTerminal nt =>
    match nt.ty with
    | .untyped =>
        let cands := g.untypedCandidates nt.name
        if cands.isEmpty then .panic "No candidates available"
        else
          let rr := drawNat st.rng cands.length
          let key := cands.getD rr.1 default
          match g.lookupRule key with
          | none => .panic "Fail to find rule"
          | some p =>
            match p.choose_by_state_src { st with rng := rr.2 } with
            | .panic m => .panic m
            | .timeout => .timeout
            | .ret (syms, st') => .ret (.nonTerminal nt.name syms, st')
    | .typed _ =>
        match g.lookupRule nt with
        | none => .panic "Fail to find rule"
        | some p =>
          match p.choose_by_state_src st with
          | .panic m => .panic m
          | .timeout => .timeout
          | .ret (syms, st') => .ret (.nonTerminal nt.name syms, st')
  | .regex re =>
      match regexGenerate fuel re g.non_re_terminals st.rng with
      | none => .timeout
      | some sr => .ret (.terminal sr.1, { st with rng := sr.2 })

/-- From `src/generator.rs` (`Generator::generate`, panicking revision):
the same worklist loop as the bnfgen-core generator but without a `Result`
return type — failures inside `reduce` are panics, not error values. -/
def CheckedGrammar.genLoopSrc (g : CheckedGrammar) (fuel : Nat)
    (stack : List SymbolKind) (buf : List String) (st : State) :
    SrcOutcome (List String × State) :=
  match fuel with
  | 0 => .timeout
  | f + 1 =>
    match stack with
    | [] => .ret (buf, st)
    | sym :: rest =>
      match g.reduceSrc (f + 1) sym st with
      | .panic m => .panic m
      | .timeout => .timeout
      | .ret (.terminal s, st') => g.genLoopSrc f rest (buf ++ [s]) st'
      | .ret (.nonTerminal _ syms, st') => g.genLoopSrc f (syms ++ rest) buf st'

/-- Worker of `replaceAll`, structurally recursive on a fuel that starts
at the input length (each step consumes at least one character, so the
fuel never runs out). -/
def replaceAllGo (pat rep : List Char) : Nat → List Char → List Char
  | 0, s => s
  | _ + 1, [] => []
  | f + 1, c :: rest =>
    if pat ≠ [] ∧ pat.isPrefixOf (c :: rest) = true then
      rep ++ replaceAllGo pat rep f (List.drop pat.length (c :: rest))
    else
      c :: replaceAllGo pat rep f rest

/-- Replace every non-overlapping occurrence of `pat` in `s` by `rep`,
scanning left to right — the behavior of Rust's `str::replace` used by the
string-literal token callback. -/
def replaceAll (pat rep : List Char) (s : List Char) : List Char :=
  replaceAllGo pat rep s.length s

/-- From `token.rs` (the `Token::Str` callback, identical in both
revisions): after stripping the surrounding quotes, the body is passed
through four replacements in order — `\"` to a quote, `\n` to a newline,
`\t` to a tab and `\r` to a carriage return.  (The callback contains no
replacement for `\\`.) -/
def strTokenCallback (body : List Char) : List Char :=
  replaceAll ['\\', 'r'] ['\r']
    (replaceAll ['\\', 't'] ['\t']
      (replaceAll ['\\', 'n'] ['\n']
        (replaceAll ['\\', '"'] ['"'] body)))

/-- Acceptance test of the string-literal body regex of `token.rs`,
`(\\["nrt\\]|[^"\\])*` : a sequence of units, each either a backslash
followed by one of `"`, `n`, `r`, `t`, `\`, or a single character that is
neither a quote nor a backslash. -/
def strBodyOk : List Char → Bool
  | [] => true
  | c :: rest =>
    if c = '\\' then
      match rest with
      | [] => false
      | d :: rest' => (d ∈ ['"', 'n', 'r', 't', '\\']) && strBodyOk rest'
    else
      decide (c ≠ '"') && strBodyOk rest

/-- The per-request loop of `App::generate`
(`crates/bnfgen-cli/src/app.rs`): run exactly `count` iterations; a
successful attempt is pushed onto the output, an attempt failing with
`MaxDepthExceeded` is skipped (`continue`), any other error is returned
immediately.  The inner generator is abstracted as the sequence of attempt
outcomes `attempt 0, attempt 1, ...`. -/
def appGo (attempt : Nat → Except Error String) :
    Nat → Nat → List String → Except Error (List String)
  | _, 0, acc => .ok acc
  | i, n + 1, acc =>
    match attempt i with
    | .ok s => appGo attempt (i + 1) n (acc ++ [s])
    | .error .maxDepthExceeded => appGo attempt (i + 1) n acc
    | .error e => .error e

/-- From `crates/bnfgen-cli/src/app.rs` (`App::generate`): the driver
entry, starting the attempt loop with an empty output buffer. -/
def appGenerate (count : Nat) (attempt : Nat → Except Error String) :
    Except Error (List String) :=
  appGo attempt 0 count []

/-- All alternatives of all productions of a checked grammar. -/
def CheckedGrammar.allAlts (g : CheckedGrammar) : List Alternative :=
  g.rules.flatMap (fun r => r.2.alts)

/-- The largest `max` bound among the bounded alternatives of the grammar
bearing a given content identity (0 when there is none).  When no two
distinct bounded alternatives share an identity this is just the `max` of
the alternative itself. -/
def CheckedGrammar.maxLimitOf (g : CheckedGrammar) (id : AltId) : Nat :=
  (g.allAlts.filterMap (fun a =>
    match a.invoke_limit with
    | .limited _ hi => if a.altId = id then some hi else none
    | .unlimited => none)).foldr max 0

/-- The invariant `min ≤ max` of a bounded limit (spec §3; established on
every checked grammar by `check_repeats`). -/
def Alternative.limitOk (a : Alternative) : Bool :=
  match a.invoke_limit with
  | .limited lo hi => decide (lo ≤ hi)
  | .unlimited => true

/-- Every bounded limit of the grammar satisfies `min ≤ max` (the state of
affairs after validation). -/
def CheckedGrammar.validLimits (g : CheckedGrammar) : Bool :=
  g.allAlts.all Alternative.limitOk

/-- Termination of the pattern-reduction resampling loop on a given
pattern, grammar and RNG stream: some number of retries produces a
result. -/
def patternReduceTerminates (g : CheckedGrammar) (re : Hir) (rng : List Nat) :
    Prop :=
  ∃ fuel sr, regexGenerate fuel re g.non_re_terminals rng = some sr

/-! Concrete instances used to witness or refute the claims. -/

/-- A single alternative `"a" {0,0}`: bounded limit with `max = 0`. -/
def altC1 : Alternative :=
  { span := ⟨0, 0⟩, weight := 1, invoke_limit := .limited 0 0,
    symbols := [{ kind := .terminal "a", span := ⟨5, 8⟩ }] }

/-- The checked grammar of the single rule `<S> ::= "a" {0,0} ;`. -/
def gC1 : CheckedGrammar :=
  { rules := [({ name := "S", ty := .untyped }, { alts := [altC1] })] }

/-- A run of the bnfgen-core generator on `gC1` from `S`. -/
def c1run : Option (Except Error (List String × State)) :=
  gC1.genLoop 3 [.nonTerminal { name := "S", ty := .untyped }] [] (State.new [0, 0])

/-- The final derivation state of the `gC1` run. -/
def c1final : State :=
  match c1run with
  | some (.ok p) => p.2
  | _ => State.new []

/-- A production whose only alternative has weight 0 (and no limit). -/
def pC3 : WeightedProduction :=
  { alts := [{ span := ⟨0, 0⟩, weight := 0, invoke_limit := .unlimited,
               symbols := [{ kind := .terminal "z", span := ⟨0, 0⟩ }] }] }

/-- An under-floor bounded alternative, `"u" {1,2}`. -/
def altC4a : Alternative :=
  { span := ⟨0, 0⟩, weight := 1, invoke_limit := .limited 1 2,
    symbols := [{ kind := .terminal "u", span := ⟨0, 0⟩ }] }

/-- An unlimited alternative, `"v"`. -/
def altC4b : Alternative :=
  { span := ⟨0, 0⟩, weight := 1, invoke_limit := .unlimited,
    symbols := [{ kind := .terminal "v", span := ⟨0, 0⟩ }] }

/-- A production mixing an under-floor bounded alternative with an
unlimited one. -/
def pC4 : WeightedProduction :=
  { alts := [altC4a, altC4b] }

/-- The grammar `<S> ::= <S> | <S> <E> ; <E> ::= "Terminal" ;` — the SCC
of `S` has a self-loop and can never escape (every alternative of `S`
mentions `S` itself), yet it has an out-edge to `E`. -/
def gBug : RawGrammar :=
  { rules :=
    [ { lhs := { name := "S", ty := .untyped },
        production := { alts :=
          [ { span := ⟨12, 15⟩, weight := 1, invoke_limit := .unlimited,
              symbols := [{ kind := .nonTerminal { name := "S", ty := .untyped }, span := ⟨12, 15⟩ }] },
            { span := ⟨18, 25⟩, weight := 1, invoke_limit := .unlimited,
              symbols :=
                [ { kind := .nonTerminal { name := "S", ty := .untyped }, span := ⟨18, 21⟩ },
                  { kind := .nonTerminal { name := "E", ty := .untyped }, span := ⟨22, 25⟩ } ] } ] },
        span := ⟨0, 27⟩ },
      { lhs := { name := "E", ty := .untyped },
        production := { alts :=
          [ { span := ⟨38, 48⟩, weight := 1, invoke_limit := .unlimited,
              symbols := [{ kind := .terminal "Terminal", span := ⟨38, 48⟩ }] } ] },
        span := ⟨28, 50⟩ } ] }

/-- A raw grammar with two independent validation errors: rule `A` refers
to the undefined non-terminal `B`, and rule `C` carries the invalid
invoke limit `(5, 1)` with `min > max`. -/
def gC5 : RawGrammar :=
  { rules :=
    [ { lhs := { name := "A", ty := .untyped },
        production := { alts :=
          [ { span := ⟨8, 11⟩, weight := 1, invoke_limit := .unlimited,
              symbols := [{ kind := .nonTerminal { name := "B", ty := .untyped }, span := ⟨8, 11⟩ }] } ] },
        span := ⟨0, 12⟩ },
      { lhs := { name := "C", ty := .untyped },
        production := { alts :=
          [ { span := ⟨21, 31⟩, weight := 1, invoke_limit := .limited 5 1,
              symbols := [{ kind := .terminal "c", span := ⟨21, 24⟩ }] } ] },
        span := ⟨13, 32⟩ } ] }

/-- The production `"a"`. -/
def prodC6a : WeightedProduction :=
  { alts := [{ span := ⟨8, 11⟩, weight := 1, invoke_limit := .unlimited,
               symbols := [{ kind := .terminal "a", span := ⟨8, 11⟩ }] }] }

/-- The production `"b"`. -/
def prodC6b : WeightedProduction :=
  { alts := [{ span := ⟨20, 23⟩, weight := 1, invoke_limit := .unlimited,
               symbols := [{ kind := .terminal "b", span := ⟨20, 23⟩ }] }] }

/-- A raw grammar with two rules sharing the same `(identifier, type-tag)`
left-hand side: `<E> ::= "a" ; <E> ::= "b" ;`. -/
def gC6 : RawGrammar :=
  { rules :=
    [ { lhs := { name := "E", ty := .untyped }, production := prodC6a, span := ⟨0, 12⟩ },
      { lhs := { name := "E", ty := .untyped }, production := prodC6b, span := ⟨13, 24⟩ } ] }

/-- The checked grammar of `<S> ::= re("m") ; <Keyword> ::= "m" ;`: the
pattern can only ever produce the string `"m"`, which is also a literal
terminal of the grammar. -/
def gC7 : CheckedGrammar :=
  { rules :=
    [ ({ name := "S", ty := .untyped },
       { alts := [{ span := ⟨0, 0⟩, weight := 1, invoke_limit := .unlimited,
                    symbols := [{ kind := .regex (.lit ['m']), span := ⟨8, 17⟩ }] }] }),
      ({ name := "Keyword", ty := .untyped },
       { alts := [{ span := ⟨0, 0⟩, weight := 1, invoke_limit := .unlimited,
                    symbols := [{ kind := .terminal "m", span := ⟨33, 36⟩ }] }] }) ] }

/-- Attempt outcomes whose first attempt fails with `NoCandidates` and
whose later attempts all succeed. -/
def attemptC8 : Nat → Except Error String :=
  fun i => if i = 0 then .error (.noCandidatesAvailable "A") else .ok "x"

/-- Attempt outcomes whose first attempt fails with the step-ceiling error
and whose later attempts all succeed. -/
def attemptC8b : Nat → Except Error String :=
  fun i => if i = 0 then .error .maxDepthExceeded else .ok "x"

/-- Attempt outcomes used by the witness of the amended driver theorem. -/
def attemptC8w : Nat → Except Error String :=
  fun i => if i = 0 then .error .maxDepthExceeded else .ok "y"

/-- The one-rule production `"hello"`. -/
def prodC10 : WeightedProduction :=
  { alts := [{ span := ⟨0, 0⟩, weight := 1, invoke_limit := .unlimited,
               symbols := [{ kind := .terminal "hello", span := ⟨8, 15⟩ }] }] }

/-- The checked grammar defining only `<S> ::= "hello" ;`. -/
def gC10 : CheckedGrammar :=
  { rules := [({ name := "S", ty := .untyped }, prodC10)] }

/-- The raw grammar defining only `<S> ::= "hello" ;`. -/
def gRawC10 : RawGrammar :=
  { rules := [{ lhs := { name := "S", ty := .untyped }, production := prodC10, span := ⟨0, 17⟩ }] }

/-! Helper lemmas. -/

theorem drawNat_fst_lt (rng : List Nat) (n : Nat) (hn : ¬ n = 0) :
    (drawNat rng n).1 < n := by
  cases rng with
  | nil => simpa [drawNat] using Nat.pos_of_ne_zero hn
  | cons x xs => simpa [drawNat] using Nat.mod_lt x (Nat.pos_of_ne_zero hn)

theorem weightedPick_lt :
    ∀ (ws : List Nat) (r : Nat), r < ws.sum → weightedPick ws r < ws.length := by
  intro ws
  induction ws with
  | nil => intro r h; simp at h
  | cons w ws ih =>
    intro r h
    unfold weightedPick
    by_cases hr : r < w
    · simp [hr]
    · simp only [if_neg hr, List.length_cons]
      have : r - w < ws.sum := by simp [List.sum_cons] at h; omega
      exact Nat.succ_lt_succ (ih _ this)

theorem le_foldr_max (l : List Nat) (x : Nat) (hx : x ∈ l) :
    x ≤ l.foldr max 0 := by
  induction l with
  | nil => cases hx
  | cons a l ih =>
    rcases List.mem_cons.mp hx with rfl | h
    · simp only [List.foldr_cons]
      exact le_max_left _ _
    · simp only [List.foldr_cons]
      exact le_trans (ih h) (le_max_right _ _)

theorem mem_le_maxLimitOf (g : CheckedGrammar) (a : Alternative) (lo hi : Nat)
    (ha : a ∈ g.allAlts) (hl : a.invoke_limit = .limited lo hi) :
    hi ≤ g.maxLimitOf a.altId := by
  unfold CheckedGrammar.maxLimitOf
  apply le_foldr_max
  apply List.mem_filterMap.mpr
  exact ⟨a, ha, by simp [hl]⟩

theorem candidates_mem (p : WeightedProduction) (st : State) (a : Alternative)
    (h : a ∈ p.candidates st) : a ∈ p.alts := by
  unfold WeightedProduction.candidates at h
  split at h <;> exact List.mem_of_mem_filter h

theorem lookupRule_alts_mem (g : CheckedGrammar) (key : NonTerminal)
    (p : WeightedProduction) (h : g.lookupRule key = some p) :
    ∀ a ∈ p.alts, a ∈ g.allAlts := by
  intro a ha
  unfold CheckedGrammar.lookupRule at h
  rcases Option.map_eq_some'.mp h with ⟨pr, hfind, hsnd⟩
  have hmem := List.mem_of_find?_eq_some hfind
  unfold CheckedGrammar.allAlts
  exact List.mem_flatMap.mpr ⟨pr, hmem, by rw [hsnd]; exact ha⟩

theorem candidates_count_le (p : WeightedProduction) (st : State)
    (a : Alternative) (hok : a.limitOk = true) (lo hi : Nat)
    (hlim : a.invoke_limit = .limited lo hi) (h : a ∈ p.candidates st) :
    st.tracking a.altId ≤ hi := by
  unfold WeightedProduction.candidates at h
  have hle : lo ≤ hi := by
    simpa [Alternative.limitOk, hlim] using hok
  split at h
  · have hf := (List.mem_filter.mp h).2
    simp [Alternative.lose_invoke_limit, hlim, State.count] at hf
    omega
  · have hf := (List.mem_filter.mp h).2
    simp [Alternative.exceeds_invoke_limit, hlim, State.count] at hf
    omega

/-! Theorems settling the claims. -/

/-- C4: whenever some alternative of a production has a bounded limit with
current count strictly below its `min`, the candidate set used for the
weighted selection of `choose_by_state` is exactly the list of those
under-floor alternatives — every other alternative, bounded or unlimited,
is excluded. -/
theorem C4_under_floor_preference (p : WeightedProduction) (st : State)
    (h : p.alts.any (fun a => a.lose_invoke_limit st) = true) :
    p.candidates st = p.alts.filter (fun a => a.lose_invoke_limit st) := by
  unfold WeightedProduction.candidates
  rw [if_pos h]

/-- Witness for C4 at a concrete production: `pC4` mixes the under-floor
bounded alternative `altC4a` (`(1,2)`, count 0) with the unlimited
`altC4b`; the candidate set in the fresh state is exactly `[altC4a]`. -/
theorem C4_under_floor_preference_witness :
    pC4.candidates (State.new []) =
      pC4.alts.filter (fun a => a.lose_invoke_limit (State.new [])) ∧
    pC4.candidates (State.new []) = [altC4a] :=
  ⟨C4_under_floor_preference pC4 (State.new []) (by decide), by decide⟩

/-- C3: the selection step of `choose_by_state` fails exactly with
`NoCandidatesAvailable`, carrying the expanded non-terminal's name, both
when the filtered candidate set is empty and when the candidates' weights
sum to zero; no other error value can be produced by selection. -/
theorem C3_no_candidates_error (p : WeightedProduction) (st : State)
    (name : String) :
    ((p.candidates st).isEmpty = true ∨ (p.candWeights st).sum = 0 →
      p.choose_by_state st name = .error (.noCandidatesAvailable name)) ∧
    (∀ e, p.choose_by_state st name = .error e →
      e = .noCandidatesAvailable name) := by
  constructor
  · intro h
    unfold WeightedProduction.choose_by_state
    rcases h with h | h
    · rw [if_pos h]
    · by_cases h0 : (p.candidates st).isEmpty = true
      · rw [if_pos h0]
      · rw [if_neg h0, if_pos h]
  · intro e he
    unfold WeightedProduction.choose_by_state at he
    by_cases h0 : (p.candidates st).isEmpty = true
    · rw [if_pos h0] at he
      exact (Except.error.inj he).symm
    · rw [if_neg h0] at he
      by_cases h1 : (p.candWeights st).sum = 0
      · rw [if_pos h1] at he
        exact (Except.error.inj he).symm
      · rw [if_neg h1] at he
        split at he <;> simp at he

/-- Witness for C3 at a concrete production: `pC3` has one unlimited
alternative of weight 0, so the candidate weights sum to zero and
selection fails with `NoCandidatesAvailable "A"`. -/
theorem C3_no_candidates_error_witness :
    pC3.choose_by_state (State.new []) "A" =
      .error (.noCandidatesAvailable "A") :=
  (C3_no_candidates_error pC3 (State.new []) "A").1 (Or.inr (by decide))

/-- C2: the grammar `gBug` = `<S> ::= <S> | <S> <E> ; <E> ::= "Terminal" ;`
contains the SCC `{S}` from which no rule can escape under the least
fixed point (computed here by `is_trap_loop_core`, the fixpoint revision
of `is_trap_loop` in `crates/bnfgen-core`), yet the `is_trap_loop` of
`src/grammar/graph.rs` — which additionally requires every out-edge of
the component to stay inside it — reports no trap, and its
`check_trap_loop` accepts the grammar for either Tarjan component order.
The repository's own commented-out test `common_dead_loop` marks exactly
this behavior `TODO: bug`. -/
theorem C2_trap_loop_code_bug :
    gBug.is_trap_loop_core ["S"] = true ∧
    gBug.is_trap_loop_old ["S"] = false ∧
    gBug.is_trap_loop_old ["E"] = false ∧
    gBug.check_trap_loop_old [["E"], ["S"]] = .ok () ∧
    gBug.check_trap_loop_old [["S"], ["E"]] = .ok () := by
  refine ⟨by decide, by decide, by decide, rfl, rfl⟩

/-- C5 counterexample: `gC5` has two independent validation errors (an
undefined reference in rule `A` and an invalid repeat range in rule `C`),
but `to_checked` reports only the first one — the invalid-range error,
which `check_repeats` alone does produce, is absent from the result, so
validation does not accumulate the errors of its independent checks. -/
theorem C5_counterexample :
    gC5.to_checked = .error (.undefinedNonTerminal ⟨8, 11⟩) ∧
    gC5.check_repeats = .error (.invalidRepeatRange ⟨21, 31⟩) :=
  ⟨rfl, rfl⟩

/-- C5 (amended): `to_checked` runs `check_undefined`, `check_duplicate`
(a no-op) and `check_repeats` in that order, short-circuiting: the result
is the first error found (each check itself stops at its first error), or
the built rule map when every check passes. -/
theorem C5_first_error_short_circuit (g : RawGrammar) :
    (∀ e, g.check_undefined = .error e → g.to_checked = .error e) ∧
    (g.check_undefined = .ok () → ∀ e, g.check_repeats = .error e →
      g.to_checked = .error e) ∧
    (g.check_undefined = .ok () → g.check_repeats = .ok () →
      g.to_checked = .ok
        { rules := (g.rules.foldl (fun m r => indexMapInsert m r.lhs r.production) []) }) := by
  refine ⟨?_, ?_, ?_⟩
  · intro e he
    simp [RawGrammar.to_checked, he]
  · intro hu e he
    simp [RawGrammar.to_checked, RawGrammar.check_duplicate, hu, he]
  · intro hu hr
    simp [RawGrammar.to_checked, RawGrammar.check_duplicate, hu, hr]

/-- Witness for C5 at the concrete grammar `gC5`: validation surfaces
exactly the first (undefined-reference) error. -/
theorem C5_first_error_short_circuit_witness :
    gC5.to_checked = .error (.undefinedNonTerminal ⟨8, 11⟩) :=
  (C5_first_error_short_circuit gC5).1 _ rfl

/-- C6: `check_duplicate` is an unimplemented no-op (`// TODO: need to
rework; Ok(self)`), so the grammar `gC6` with two rules for the same
`(identifier, type-tag)` pair `("E", untyped)` passes validation instead
of failing with `DuplicatedRules`; the second rule silently overwrites
the first in the checked rule map. -/
theorem C6_duplicate_check_noop :
    gC6.check_duplicate = .ok () ∧
    gC6.to_checked = .ok { rules := [({ name := "E", ty := .untyped }, prodC6b)] } :=
  ⟨rfl, rfl⟩

/-- C8 counterexample: in the driver loop of `App::generate`, an attempt
failing with `NoCandidatesAvailable` is fatal — the driver returns the
error instead of retrying (the claim predicted `.ok ["x"]` from the
successful second attempt) — and with two requested outputs whose first
attempt hits the step ceiling, the driver returns only one output instead
of retrying until two are produced. -/
theorem C8_counterexample :
    appGenerate 1 attemptC8 = .error (.noCandidatesAvailable "A") ∧
    appGenerate 2 attemptC8b = .ok ["x"] :=
  ⟨rfl, rfl⟩

theorem appGo_spec (attempt : Nat → Except Error String) :
    ∀ (n i : Nat) (acc : List String),
      (∀ j, j < n → attempt (i + j) = .error .maxDepthExceeded ∨
        ∃ s, attempt (i + j) = .ok s) →
      appGo attempt i n acc =
        .ok (acc ++ (List.range' i n).filterMap (fun j => (attempt j).toOption)) := by
  intro n
  induction n with
  | zero => intro i acc _; simp [appGo]
  | succ n ih =>
    intro i acc h
    have hshift : ∀ j, j < n → attempt (i + 1 + j) = .error .maxDepthExceeded ∨
        ∃ s, attempt (i + 1 + j) = .ok s := by
      intro j hj
      have := h (j + 1) (by omega)
      rwa [show i + (j + 1) = i + 1 + j by omega] at this
    rcases h 0 (Nat.succ_pos n) with hm | ⟨s, hs⟩
    · rw [Nat.add_zero] at hm
      rw [show appGo attempt i (n + 1) acc = appGo attempt (i + 1) n acc from by
        simp [appGo, hm]]
      rw [ih (i + 1) acc hshift]
      simp [List.range'_succ, hm, Except.toOption]
    · rw [Nat.add_zero] at hs
      rw [show appGo attempt i (n + 1) acc = appGo attempt (i + 1) n (acc ++ [s]) from by
        simp [appGo, hs]]
      rw [ih (i + 1) (acc ++ [s]) hshift]
      simp [List.range'_succ, hs, Except.toOption]

/-- C8 (amended): `App::generate` runs exactly `count` attempts with no
retry cap; as long as every attempt either succeeds or fails with the
step-ceiling error `MaxDepthExceeded`, the result is the list of the
successful attempts' outputs in order — step-ceiling failures are
discarded and skipped, so the list may be shorter than `count`.  (Any
other error aborts the loop immediately; see the counterexample.) -/
theorem C8_driver_loop (count : Nat) (attempt : Nat → Except Error String)
    (h : ∀ i, i < count → attempt i = .error .maxDepthExceeded ∨
      ∃ s, attempt i = .ok s) :
    appGenerate count attempt =
      .ok ((List.range count).filterMap (fun i => (attempt i).toOption)) := by
  unfold appGenerate
  rw [appGo_spec attempt count 0 [] (by simpa using h)]
  rw [List.range_eq_range']
  simp

/-- Witness for C8 at concrete attempts: of two attempts, the first hits
the step ceiling and the second succeeds with `"y"`; the driver returns
the single output `["y"]`. -/
theorem C8_driver_loop_witness :
    appGenerate 2 attemptC8w =
      .ok ((List.range 2).filterMap (fun i => (attemptC8w i).toOption)) ∧
    appGenerate 2 attemptC8w = .ok ["y"] :=
  ⟨C8_driver_loop 2 attemptC8w (by
      intro i hi
      interval_cases i
      · exact Or.inl rfl
      · exact Or.inr ⟨"y", rfl⟩),
    rfl⟩

/-- C9: the string-literal token callback decodes `\"`, `\n`, `\t` and
`\r`, but contains no replacement for `\\`: the body made of the single
escape `\\` — which the lexer's own token regex accepts, as `strBodyOk`
shows — is left as two backslash characters instead of decoding to one. -/
theorem C9_escape_decoding :
    strTokenCallback ['\\', '\\'] = ['\\', '\\'] ∧
    strBodyOk ['\\', '\\'] = true ∧
    strTokenCallback ['\\', '"'] = ['"'] ∧
    strTokenCallback ['\\', 'n'] = ['\n'] ∧
    strTokenCallback ['\\', 't'] = ['\t'] ∧
    strTokenCallback ['\\', 'r'] = ['\r'] :=
  ⟨rfl, rfl, rfl, rfl, rfl, rfl⟩

/-- C10: with a grammar defining only `S`, asking the panicking-revision
generator for the undefined start symbol `X` leaves the untyped-lookup
candidate pool empty, so the `expect("No candidates available")` fires (a
panic, not an error value); likewise `check_unused("X")` panics at
`expect("The start symbol does not exist")`. -/
theorem C10_undefined_start_panics :
    gC10.genLoopSrc 5 [.nonTerminal { name := "X", ty := .untyped }] []
      (State.new []) = .panic "No candidates available" ∧
    gRawC10.check_unused "X" = .panic "The start symbol does not exist" ∧
    gC10.untypedCandidates "X" = [] :=
  ⟨rfl, rfl, rfl⟩

theorem regexGenerate_lit_m_none :
    ∀ fuel, regexGenerate fuel (Hir.lit ['m']) ["m"] [] = none := by
  intro fuel
  induction fuel with
  | zero => rfl
  | succ f ih =>
    have h1 : hirHelper (f + 1) (Hir.lit ['m']) [] = some ("m", []) := rfl
    simp only [regexGenerate, h1]
    simpa using ih

/-- C7 counterexample: for the grammar `gC7`, whose pattern `re("m")` can
only ever produce the string `"m"` while `"m"` is also a literal terminal
of the grammar, the resampling loop of `Regex::generate` never returns —
no retry bound exists, so reducing this pattern symbol does not
terminate. -/
theorem C7_counterexample : ¬ patternReduceTerminates gC7 (Hir.lit ['m']) [] := by
  rintro ⟨fuel, sr, h⟩
  have hterm : gC7.non_re_terminals = ["m"] := rfl
  rw [hterm, regexGenerate_lit_m_none fuel] at h
  exact Option.noConfusion h

/-- C7 (amended): pattern sampling re-samples with unlimited retries
whenever the sampled string equals a literal terminal of the grammar;
whenever the loop does return a string, that string collides with no
literal terminal — but termination is not guaranteed (see the
counterexample where every producible string collides). -/
theorem C7_resample_avoids_terminals (fuel : Nat) (re : Hir)
    (terminals : List String) (rng : List Nat) (s : String) (rng' : List Nat)
    (h : regexGenerate fuel re terminals rng = some (s, rng')) :
    s ∉ terminals := by
  induction fuel generalizing rng with
  | zero => simp [regexGenerate] at h
  | succ f ih =>
    simp only [regexGenerate] at h
    cases hh : hirHelper (f + 1) re rng with
    | none => rw [hh] at h; simp at h
    | some sr =>
      obtain ⟨s0, r0⟩ := sr
      rw [hh] at h
      simp only at h
      split at h
      · exact ih r0 h
      · next hmem =>
        obtain ⟨rfl, -⟩ : s0 = s ∧ r0 = rng' := by
          simpa using h
        exact hmem

/-- Witness for C7 at a concrete sample: with the grammar `gC7` (whose
only literal terminal is `"m"`), generating from the pattern `re("a")`
returns `"a"` at the first try, and the returned string is not among the
grammar's literal terminals. -/
theorem C7_resample_avoids_terminals_witness :
    regexGenerate 1 (Hir.lit ['a']) gC7.non_re_terminals [] = some ("a", []) ∧
    "a" ∉ gC7.non_re_terminals :=
  ⟨rfl, C7_resample_avoids_terminals 1 (Hir.lit ['a']) gC7.non_re_terminals []
    "a" [] rfl⟩

theorem has_invoke_limits_limited (a : Alternative)
    (h : a.has_invoke_limits = true) :
    ∃ lo hi, a.invoke_limit = .limited lo hi := by
  revert h
  unfold Alternative.has_invoke_limits
  cases a.invoke_limit with
  | unlimited => simp
  | limited lo hi => exact fun _ => ⟨lo, hi, rfl⟩

theorem choose_by_state_preserves (g : CheckedGrammar) (p : WeightedProduction)
    (st : State) (n : String) (syms : List SymbolKind) (st' : State)
    (hsub : ∀ a ∈ p.alts, a ∈ g.allAlts)
    (hval : g.validLimits = true)
    (hI : ∀ id, st.tracking id ≤ g.maxLimitOf id + 1)
    (h : p.choose_by_state st n = .ok (syms, st')) :
    ∀ id, st'.tracking id ≤ g.maxLimitOf id + 1 := by
  unfold WeightedProduction.choose_by_state at h
  by_cases h0 : (p.candidates st).isEmpty = true
  · rw [if_pos h0] at h; exact absurd h (by simp)
  rw [if_neg h0] at h
  by_cases h1 : (p.candWeights st).sum = 0
  · rw [if_pos h1] at h; exact absurd h (by simp)
  rw [if_neg h1] at h
  have hrlt : (drawNat st.rng (p.candWeights st).sum).1 < (p.candWeights st).sum :=
    drawNat_fst_lt _ _ h1
  have hklt :
      weightedPick (p.candWeights st) ((drawNat st.rng (p.candWeights st).sum).1)
        < (p.candidates st).length := by
    have hh := weightedPick_lt (p.candWeights st) _ hrlt
    simpa [WeightedProduction.candWeights] using hh
  have hmem : p.chosenAlt st ∈ p.candidates st := by
    unfold WeightedProduction.chosenAlt
    rw [List.getD_eq_getElem _ _ hklt]
    exact List.getElem_mem _
  have hmemAll : p.chosenAlt st ∈ g.allAlts :=
    hsub _ (candidates_mem p st _ hmem)
  by_cases h2 : (p.chosenAlt st).has_invoke_limits = true
  · rw [if_pos h2] at h
    obtain ⟨-, hst⟩ :
        (p.chosenAlt st).symbols.map Symbol.kind = syms ∧
        (st.withRng (drawNat st.rng (p.candWeights st).sum).2).track
          (p.chosenAlt st).altId = st' := by
      simpa using h
    obtain ⟨lo, hi, hlim⟩ := has_invoke_limits_limited _ h2
    have hok : (p.chosenAlt st).limitOk = true := by
      unfold CheckedGrammar.validLimits at hval
      exact List.all_eq_true.mp hval _ hmemAll
    have hcount : st.tracking (p.chosenAlt st).altId ≤ hi :=
      candidates_count_le p st _ hok lo hi hlim hmem
    have hmax := mem_le_maxLimitOf g _ lo hi hmemAll hlim
    intro id
    rw [← hst]
    unfold State.track State.withRng
    by_cases hid : id = (p.chosenAlt st).altId
    · subst hid
      simp only [if_pos rfl, if_true, eq_self_iff_true]
      simp
      omega
    · simp only [if_neg hid]
      exact hI id
  · rw [if_neg h2] at h
    obtain ⟨-, hst⟩ :
        (p.chosenAlt st).symbols.map Symbol.kind = syms ∧
        st.withRng (drawNat st.rng (p.candWeights st).sum).2 = st' := by
      simpa using h
    intro id
    rw [← hst]
    exact hI id

theorem reduce_preserves (g : CheckedGrammar) (fuel : Nat) (sym : SymbolKind)
    (st : State) (out : ReduceOutput) (st' : State)
    (hval : g.validLimits = true)
    (hI : ∀ id, st.tracking id ≤ g.maxLimitOf id + 1)
    (h : g.reduce fuel sym st = some (.ok (out, st'))) :
    ∀ id, st'.tracking id ≤ g.maxLimitOf id + 1 := by
  cases sym with
  | terminal s =>
    obtain ⟨-, rfl⟩ : ReduceOutput.terminal s = out ∧ st = st' := by
      simpa [CheckedGrammar.reduce] using h
    exact hI
  | nonTerminal nt =>
    obtain ⟨name, ty⟩ := nt
    cases ty with
    | untyped =>
      simp only [CheckedGrammar.reduce] at h
      by_cases h0 : (g.untypedCandidates name).isEmpty = true
      · rw [if_pos h0] at h; simp at h
      · rw [if_neg h0] at h
        cases hlook : g.lookupRule (g.untypedPickKey name st) with
        | none => rw [hlook] at h; simp at h
        | some p =>
          rw [hlook] at h
          simp only [Option.some.injEq] at h
          cases hc : p.choose_by_state
              (st.withRng (drawNat st.rng (g.untypedCandidates name).length).2)
              name with
          | error e => rw [hc] at h; simp [Except.map] at h
          | ok pr =>
            rw [hc] at h
            simp only [Except.map, Except.ok.injEq, Prod.mk.injEq] at h
            obtain ⟨-, rfl⟩ := h
            exact choose_by_state_preserves g p
              (st.withRng (drawNat st.rng (g.untypedCandidates name).length).2)
              name pr.1 pr.2 (lookupRule_alts_mem g _ p hlook) hval hI hc
    | typed label =>
      simp only [CheckedGrammar.reduce] at h
      cases hlook : g.lookupRule { name := name, ty := .typed label } with
      | none => rw [hlook] at h; simp at h
      | some p =>
        rw [hlook] at h
        simp only [Option.some.injEq] at h
        cases hc : p.choose_by_state st name with
        | error e => rw [hc] at h; simp [Except.map] at h
        | ok pr =>
          rw [hc] at h
          simp only [Except.map, Except.ok.injEq, Prod.mk.injEq] at h
          obtain ⟨-, rfl⟩ := h
          exact choose_by_state_preserves g p st name pr.1 pr.2
            (lookupRule_alts_mem g _ p hlook) hval hI hc
  | regex re =>
    simp only [CheckedGrammar.reduce] at h
    cases hr : regexGenerate fuel re g.non_re_terminals st.rng with
    | none => rw [hr] at h; simp at h
    | some sr =>
      rw [hr] at h
      simp only [Option.some.injEq, Except.ok.injEq, Prod.mk.injEq] at h
      obtain ⟨-, rfl⟩ := h
      exact hI

theorem genLoop_preserves (g : CheckedGrammar) (hval : g.validLimits = true) :
    ∀ (fuel : Nat) (stack : List SymbolKind) (buf : List String) (st : State)
      (bufR : List String) (stR : State),
      (∀ id, st.tracking id ≤ g.maxLimitOf id + 1) →
      g.genLoop fuel stack buf st = some (.ok (bufR, stR)) →
      ∀ id, stR.tracking id ≤ g.maxLimitOf id + 1 := by
  intro fuel
  induction fuel with
  | zero =>
    intro stack buf st bufR stR hI h
    simp [CheckedGrammar.genLoop] at h
  | succ f ih =>
    intro stack buf st bufR stR hI h
    cases stack with
    | nil =>
      obtain ⟨-, rfl⟩ : buf = bufR ∧ st = stR := by
        simpa [CheckedGrammar.genLoop] using h
      exact hI
    | cons sym rest =>
      simp only [CheckedGrammar.genLoop] at h
      cases hr : g.reduce (f + 1) sym st with
      | none => rw [hr] at h; simp at h
      | some exc =>
        rw [hr] at h
        cases exc with
        | error e => simp at h
        | ok pr =>
          obtain ⟨out, st₁⟩ := pr
          have hI₁ := reduce_preserves g (f + 1) sym st out st₁ hval hI hr
          cases out with
          | terminal s =>
            exact ih rest (buf ++ [s]) st₁ bufR stR hI₁ (by simpa using h)
          | nonTerminal nm syms =>
            exact ih (syms ++ rest) buf st₁ bufR stR hI₁ (by simpa using h)

/-- C1 counterexample: in the grammar `gC1` = `<S> ::= "a" {0,0} ;`, whose
single alternative has the bounded limit `max = 0`, a successful
derivation of `Generator::generate` exists (it outputs `"a"`), and at the
end of it the selection count recorded under the alternative's content
identity equals 1 — strictly greater than `max`.  (The candidate filter
only excludes an alternative once its count already EXCEEDS `max`, so a
bounded alternative is selectable `max + 1` times.) -/
theorem C1_counterexample :
    c1run.map (Except.map (fun p => (p.1, p.2.tracking altC1.altId)))
      = some (.ok (["a"], 1)) ∧
    altC1.invoke_limit = .limited 0 0 :=
  ⟨rfl, rfl⟩

/-- C1 (amended): over every successful derivation of the bnfgen-core
`Generator::generate` loop on a validated grammar (every bounded limit
has `min ≤ max`), the count recorded under any bounded alternative's
content identity never exceeds `M + 1`, where `M` is the largest `max`
bound among the (possibly several) bounded alternatives of the grammar
sharing that identity; for an alternative whose identity is unshared,
`M` is its own `max`, so its count never exceeds `max + 1` — and the
counterexample shows `max + 1` is attained, refuting the claimed bound
`max`. -/
theorem C1_invoke_limit_bound (g : CheckedGrammar) (fuel : Nat)
    (start : String) (rng : List Nat) (bufR : List String) (stR : State)
    (hval : g.validLimits = true)
    (h : g.genLoop fuel [.nonTerminal { name := start, ty := .untyped }] []
      (State.new rng) = some (.ok (bufR, stR)))
    (a : Alternative) (ha : a ∈ g.allAlts) (lo hi : Nat)
    (hlim : a.invoke_limit = .limited lo hi) :
    stR.tracking a.altId ≤ g.maxLimitOf a.altId + 1 ∧
    hi ≤ g.maxLimitOf a.altId :=
  ⟨genLoop_preserves g hval fuel _ _ _ _ _
      (fun _ => by simp [State.new]) h a.altId,
    mem_le_maxLimitOf g a lo hi ha hlim⟩

/-- Witness for C1 at the concrete grammar `gC1` and its successful run
`c1run`: the final count of the `{0,0}`-bounded alternative is bounded by
`maxLimitOf + 1 = 1`. -/
theorem C1_invoke_limit_bound_witness :
    gC1.validLimits = true ∧
    gC1.genLoop 3 [.nonTerminal { name := "S", ty := .untyped }] []
      (State.new [0, 0]) = some (.ok (["a"], c1final)) ∧
    c1final.tracking altC1.altId ≤ gC1.maxLimitOf altC1.altId + 1 ∧
    0 ≤ gC1.maxLimitOf altC1.altId := by
  refine ⟨rfl, rfl, ?_⟩
  exact C1_invoke_limit_bound gC1 3 "S" [0, 0] ["a"] c1final rfl rfl altC1
    (by decide) 0 0 rfl

end Bnfgen
